import Mathlib

/-!
Shallow embedding of the dependency-injection container in `src/container.ts`.

The TypeScript module keeps three pieces of state:
  * `registry : Map<Constructable, Metadata>` with `Metadata = { instance?: T }`,
  * `injections : Map<Constructable, { key; dependency }[]>`,
  * `DIContainer.resolving : Set<Constructable>`.

We model class constructors (`Constructable`) as opaque `Nat` identities and
object instances as `Nat` identities allocated from a counter (so that
JavaScript reference equality becomes equality of allocation ids).  The
registration-time data (the registry's key set, each class's `name`, its
prototype-chain parent, and its injection records) never changes during
resolution, so it lives in an immutable `Env`; the mutable data (the
`Metadata.instance` slots, the `resolving` set, the allocation counter and the
properties assigned by `Object.defineProperty`) lives in `St`.
-/

namespace DI

/-- A class constructor (`Constructable` in the source), by identity. -/
abbrev Ty := Nat

/-- An object instance, by reference identity (allocation id). -/
abbrev InstId := Nat

/-- One entry of the `injections` map: `{ key: string; dependency: Constructable }`.
The dependency is an `Option` because in JavaScript the captured constructor can
be `undefined` (circular-import hazard), which `get` must reject. -/
structure InjRecord where
  key : String
  dependency : Option Ty
deriving Repr, DecidableEq

/-- The registration-time data of the module: the registry's key set
(`registry.has`), each class's `name`, its prototype-chain parent
(`Object.getPrototypeOf(current.prototype).constructor`, `none` when that is
`Object`), and the `injections` map. -/
structure Env where
  registryKeys : List Ty
  names : List (Ty × String)
  parents : List (Ty × Ty)
  injectionMap : List (Ty × List InjRecord)

/-- `registry.has(type)`. -/
def Env.isRegistered (env : Env) (t : Ty) : Bool := env.registryKeys.contains t

/-- The default reported name (never hit for a class with a `names` entry). -/
def noName : String := ""

/-- `type.name`. -/
def Env.nameOf (env : Env) (t : Ty) : String := (env.names.lookup t).getD noName

/-- The prototype-chain step: `proto?.constructor !== Object ? proto?.constructor : null`. -/
def Env.parentOf (env : Env) (t : Ty) : Option Ty := env.parents.lookup t

/-- `injections.get(current)`, defaulting a missing entry to no records (the
loop body is skipped when `injections.get` returns `undefined`). -/
def Env.injectionsOf (env : Env) (t : Ty) : List InjRecord := (env.injectionMap.lookup t).getD []

/-- The mutable state of the module: the `Metadata.instance` slot of each
registered class (an association list whose first hit wins, so consing a pair
on overwrites), the `resolving` set, the allocation counter for fresh
instances, and the log of property assignments made by
`Object.defineProperty(instance, key, { value, ... })`. -/
structure St where
  instances : List (Ty × InstId)
  resolving : List Ty
  nextId : Nat
  assignLog : List (InstId × String × InstId)
deriving Repr, DecidableEq

/-- `registry.get(type)!.instance`. -/
def St.instanceOf (st : St) (t : Ty) : Option InstId := st.instances.lookup t

/-- `this.resolving.add(type)`. -/
def St.enterResolving (st : St) (t : Ty) : St := { st with resolving := t :: st.resolving }

/-- `this.resolving.delete(type)` (the `finally` block). -/
def St.exitResolving (st : St) (t : Ty) : St := { st with resolving := st.resolving.erase t }

/-- `new type()`: allocate a fresh instance (its id is the old `nextId`). -/
def St.allocate (st : St) : St := { st with nextId := st.nextId + 1 }

/-- `meta.instance = instance`. -/
def St.cacheInstance (st : St) (t : Ty) (i : InstId) : St :=
  { st with instances := (t, i) :: st.instances }

/-- `Object.defineProperty(instance, key, { value, writable: true, configurable: true })`:
record the assignment.  `defineProperty` replaces an existing property, so the
observable value of a key is the last assignment to it (`St.propsOf` keeps the
whole ordered log; a reader takes the last hit per key). -/
def St.assignProp (st : St) (inst : InstId) (k : String) (v : InstId) : St :=
  { st with assignLog := st.assignLog ++ [(inst, k, v)] }

/-- The ordered property assignments made to one instance. -/
def St.propsOf (st : St) (i : InstId) : List (String × InstId) :=
  st.assignLog.filterMap (fun e => if e.1 = i then some (e.2.1, e.2.2) else none)

/-- Well-formedness of a state: every logged assignment and every cached
instance mentions an already-allocated instance id.  The empty initial state
is well formed and (as proved below) resolution preserves this. -/
def St.WF (st : St) : Prop :=
  (∀ e ∈ st.assignLog, e.1 < st.nextId) ∧ (∀ p ∈ st.instances, p.2 < st.nextId)

/-- The initial state of the module: no cached instances, empty `resolving`
set, no instances allocated yet. -/
def St.empty : St := ⟨[], [], 0, []⟩

/-- Exact message of the undefined-dependency error. -/
def undefinedMsg : String :=
  "[DI] Cannot resolve dependency: type is undefined. Possible circular import or missing dependency."

/-- Exact message of the unregistered-type error. -/
def unregisteredMsg (n : String) : String := "[DI] " ++ n ++ " is not registered. Use @Injectable"

/-- Exact message of the circular-dependency error. -/
def circularMsg (n : String) : String := "[DI] Circular dependency detected while resolving " ++ n

/-- The `while (current)` walk up the prototype chain, fuelled.  JavaScript
guarantees prototype chains are acyclic, so a chain visits each entry of
`env.parents` at most once and fuel `env.parents.length + 1` (used by
`chainOf`) never runs out. -/
def chainFrom (env : Env) : Nat → Option Ty → List Ty
  | 0, _ => []
  | _ + 1, none => []
  | fuel + 1, some t => t :: chainFrom env fuel (env.parentOf t)

/-- The prototype chain of `t`: `t` itself and its ancestors, stopping before
`Object`. -/
def chainOf (env : Env) (t : Ty) : List Ty := chainFrom env (env.parents.length + 1) (some t)

/-- All injection records the walk applies while resolving `t`: for each class
of the chain, in chain order, its direct records in declaration order. -/
def chainRecords (env : Env) (t : Ty) : List InjRecord :=
  (chainOf env t).foldr (fun c acc => env.injectionsOf c ++ acc) []

/-- The inner `for (const { key, dependency } of currentInjections)` loop,
parametric in the recursive resolver `g`: resolve each record's dependency and
assign the result onto `inst`'s property; a thrown error aborts the loop and
propagates (with the state mutations made so far kept, as in JavaScript).
`none` means the resolver ran out of fuel. -/
def injectList (g : St → Option Ty → Option ((Except String InstId) × St)) (inst : InstId) :
    St → List InjRecord → Option ((Except String Unit) × St)
  | st, [] => some (Except.ok (), st)
  | st, r :: rs =>
    match g st r.dependency with
    | none => none
    | some (Except.error e, st') => some (Except.error e, st')
    | some (Except.ok v, st') => injectList g inst (st'.assignProp inst r.key v) rs

/-- `DIContainer.get`, fuelled (fuel bounds the depth of recursive `get`
calls; `getTotal` below proves `registryKeys.length + 1` always suffices).
Mirrors the source step by step: undefined check, registration check, cache
hit, cycle check, enter `resolving`, `new type()`, the prototype-chain
injection walk, cache, and the `finally` removal from `resolving` on both the
success and the error path. -/
def getAux (env : Env) : Nat → St → Option Ty → Option ((Except String InstId) × St)
  | 0, _, _ => none
  | fuel + 1, st, t? =>
    match t? with
    | none => some (Except.error undefinedMsg, st)
    | some t =>
      if env.isRegistered t then
        match st.instanceOf t with
        | some i => some (Except.ok i, st)
        | none =>
          if st.resolving.contains t then
            some (Except.error (circularMsg (env.nameOf t)), st)
          else
            let st1 := st.enterResolving t
            let inst := st1.nextId
            let st2 := st1.allocate
            match injectList (getAux env fuel) inst st2 (chainRecords env t) with
            | none => none
            | some (Except.error e, st3) => some (Except.error e, st3.exitResolving t)
            | some (Except.ok _, st3) =>
              some (Except.ok inst, (st3.cacheInstance t inst).exitResolving t)
      else
        some (Except.error (unregisteredMsg (env.nameOf t)), st)

/-- `DIContainer.get`: the fuelled resolver at the always-sufficient fuel. -/
def DIContainer.get (env : Env) (st : St) (t? : Option Ty) :
    Option ((Except String InstId) × St) :=
  getAux env (env.registryKeys.length + 1) st t?

/-- `DIContainer.reset`: `for (const meta of registry.values()) delete meta.instance` —
drop the cached instance of every registered class, touching nothing else. -/
def DIContainer.reset (env : Env) (st : St) : St :=
  { st with instances := st.instances.filter (fun p => !(env.isRegistered p.1)) }

/-- Run a sequence of top-level `get` calls for their state effect. -/
def runGets (env : Env) : List (Option Ty) → St → St
  | [], st => st
  | c :: cs, st =>
    match DIContainer.get env st c with
    | some (_, st') => runGets env cs st'
    | none => runGets env cs st

/-! ### Basic state lemmas -/

@[simp] theorem St.resolving_enter (st : St) (t : Ty) :
    (st.enterResolving t).resolving = t :: st.resolving := rfl

@[simp] theorem St.nextId_enter (st : St) (t : Ty) :
    (st.enterResolving t).nextId = st.nextId := rfl

@[simp] theorem St.resolving_exit (st : St) (t : Ty) :
    (st.exitResolving t).resolving = st.resolving.erase t := rfl

@[simp] theorem St.nextId_exit (st : St) (t : Ty) :
    (st.exitResolving t).nextId = st.nextId := rfl

@[simp] theorem St.resolving_allocate (st : St) : st.allocate.resolving = st.resolving := rfl

@[simp] theorem St.nextId_allocate (st : St) : st.allocate.nextId = st.nextId + 1 := rfl

@[simp] theorem St.resolving_cache (st : St) (t : Ty) (i : InstId) :
    (st.cacheInstance t i).resolving = st.resolving := rfl

@[simp] theorem St.nextId_cache (st : St) (t : Ty) (i : InstId) :
    (st.cacheInstance t i).nextId = st.nextId := rfl

@[simp] theorem St.resolving_assign (st : St) (inst : InstId) (k : String) (v : InstId) :
    (st.assignProp inst k v).resolving = st.resolving := rfl

@[simp] theorem St.nextId_assign (st : St) (inst : InstId) (k : String) (v : InstId) :
    (st.assignProp inst k v).nextId = st.nextId := rfl

theorem St.instanceOf_enter (st : St) (t u : Ty) :
    (st.enterResolving t).instanceOf u = st.instanceOf u := rfl

theorem St.instanceOf_exit (st : St) (t u : Ty) :
    (st.exitResolving t).instanceOf u = st.instanceOf u := rfl

theorem St.instanceOf_allocate (st : St) (u : Ty) :
    st.allocate.instanceOf u = st.instanceOf u := rfl

theorem St.instanceOf_assign (st : St) (inst : InstId) (k : String) (v : InstId) (u : Ty) :
    (st.assignProp inst k v).instanceOf u = st.instanceOf u := rfl

theorem St.instanceOf_cache_self (st : St) (t : Ty) (i : InstId) :
    (st.cacheInstance t i).instanceOf t = some i := by
  simp [St.instanceOf, St.cacheInstance, List.lookup]

theorem St.instanceOf_cache_ne (st : St) (t : Ty) (i : InstId) (u : Ty) (h : u ≠ t) :
    (st.cacheInstance t i).instanceOf u = st.instanceOf u := by
  simp [St.instanceOf, St.cacheInstance, List.lookup, beq_false_of_ne h]

theorem St.propsOf_assign_self (st : St) (inst : InstId) (k : String) (v : InstId) :
    (st.assignProp inst k v).propsOf inst = st.propsOf inst ++ [(k, v)] := by
  simp [St.propsOf, St.assignProp, List.filterMap_append]

theorem St.propsOf_assign_ne (st : St) (inst : InstId) (k : String) (v : InstId) (j : InstId)
    (h : j ≠ inst) : (st.assignProp inst k v).propsOf j = st.propsOf j := by
  simp [St.propsOf, St.assignProp, List.filterMap_append, Ne.symm h]

theorem St.propsOf_enter (st : St) (t : Ty) (j : InstId) :
    (st.enterResolving t).propsOf j = st.propsOf j := rfl

theorem St.propsOf_exit (st : St) (t : Ty) (j : InstId) :
    (st.exitResolving t).propsOf j = st.propsOf j := rfl

theorem St.propsOf_allocate (st : St) (j : InstId) :
    st.allocate.propsOf j = st.propsOf j := rfl

theorem St.propsOf_cache (st : St) (t : Ty) (i : InstId) (j : InstId) :
    (st.cacheInstance t i).propsOf j = st.propsOf j := rfl

theorem St.propsOf_eq_nil_of_WF (st : St) (hwf : st.WF) (j : InstId) (hj : st.nextId ≤ j) :
    st.propsOf j = [] := by
  rw [St.propsOf, List.filterMap_eq_nil_iff]
  intro e he
  have h1 : e.1 < st.nextId := hwf.1 e he
  have h2 : e.1 ≠ j := Nat.ne_of_lt (Nat.lt_of_lt_of_le h1 hj)
  simp [h2]

/-! ### The evolution invariant of one resolver call -/

/-- What any terminating call of the resolver (and of the injection loop)
guarantees about the state: the `resolving` set is restored (the `finally`
block), the allocation counter never goes down, a cached instance is never
replaced (first successful resolution wins), a class that is mid-resolution
and uncached stays uncached, and well-formedness is preserved. -/
def Pres (st st' : St) : Prop :=
  st'.resolving = st.resolving ∧
  st.nextId ≤ st'.nextId ∧
  (∀ u v, st.instanceOf u = some v → st'.instanceOf u = some v) ∧
  (∀ u, st.resolving.contains u = true → st.instanceOf u = none → st'.instanceOf u = none) ∧
  (st.WF → st'.WF)

theorem Pres.refl (st : St) : Pres st st :=
  ⟨Eq.refl _, le_refl _, fun _ _ h => h, fun _ _ h => h, id⟩

theorem Pres.trans {st st' st'' : St} (h1 : Pres st st') (h2 : Pres st' st'') :
    Pres st st'' := by
  obtain ⟨r1, n1, c1, u1, w1⟩ := h1
  obtain ⟨r2, n2, c2, u2, w2⟩ := h2
  refine ⟨r2.trans r1, n1.trans n2, fun u v h => c2 u v (c1 u v h), ?_, fun h => w2 (w1 h)⟩
  intro u hu hn
  exact u2 u (r1 ▸ hu) (u1 u hu hn)

/-- Every error thrown by the resolver carries one of the three exact
messages of the source. -/
def ErrForm (e : String) : Prop :=
  e = undefinedMsg ∨ (∃ n, e = unregisteredMsg n) ∨ (∃ n, e = circularMsg n)

/-- The induction package for a resolver function: every terminating call
preserves `Pres`, leaves the properties of previously-allocated instances
alone, throws only the three errors, and on success has cached the resolved
class's instance. -/
def Sound (g : St → Option Ty → Option ((Except String InstId) × St)) : Prop :=
  ∀ st t? r st', g st t? = some (r, st') →
    Pres st st' ∧
    (∀ j, j < st.nextId → st'.propsOf j = st.propsOf j) ∧
    (∀ e, r = Except.error e → ErrForm e) ∧
    (∀ i, r = Except.ok i → ∃ t, t? = some t ∧ st'.instanceOf t = some i)

theorem Pres.assignProp (st : St) (inst : InstId) (k : String) (v : InstId)
    (h : inst < st.nextId) : Pres st (st.assignProp inst k v) := by
  refine ⟨Eq.refl _, le_refl _, fun _ _ h => h, fun _ _ h => h, ?_⟩
  rintro ⟨hlog, hinst⟩
  refine ⟨?_, hinst⟩
  intro e he
  simp only [St.assignProp, List.mem_append, List.mem_singleton] at he
  rcases he with he | he
  · exact hlog e he
  · subst he; exact h

/-- Soundness of the injection loop, given soundness of the resolver it
calls.  The loop additionally never touches the properties of an
already-allocated instance other than the one it is populating. -/
theorem injectList_sound (g : St → Option Ty → Option ((Except String InstId) × St))
    (hg : Sound g) (inst : InstId) :
    ∀ (rs : List InjRecord) (st : St) (r : Except String Unit) (st' : St),
      inst < st.nextId → injectList g inst st rs = some (r, st') →
      Pres st st' ∧
      (∀ j, j < st.nextId → j ≠ inst → st'.propsOf j = st.propsOf j) ∧
      (∀ e, r = Except.error e → ErrForm e) := by
  intro rs
  induction rs with
  | nil =>
    intro st r st' _ h
    simp only [injectList, Option.some.injEq, Prod.mk.injEq] at h
    obtain ⟨rfl, rfl⟩ := h
    exact ⟨Pres.refl st, fun _ _ _ => Eq.refl _, fun e he => by cases he⟩
  | cons rec rs ih =>
    intro st r st' hinst h
    simp only [injectList] at h
    cases hr : g st rec.dependency with
    | none => rw [hr] at h; cases h
    | some res =>
      obtain ⟨res1, st1⟩ := res
      rw [hr] at h
      obtain ⟨p1, pprops, perr, pok⟩ := hg st rec.dependency res1 st1 hr
      have hn1 : st.nextId ≤ st1.nextId := p1.2.1
      cases res1 with
      | error e =>
        simp only [Option.some.injEq, Prod.mk.injEq] at h
        obtain ⟨rfl, rfl⟩ := h
        refine ⟨p1, fun j hj _ => pprops j hj, fun e' he' => ?_⟩
        cases he'
        exact perr _ (Eq.refl _)
      | ok v =>
        simp only at h
        have hlt1 : inst < st1.nextId := Nat.lt_of_lt_of_le hinst hn1
        have hinst1 : inst < (st1.assignProp inst rec.key v).nextId := by
          simp only [St.nextId_assign]; exact hlt1
        obtain ⟨q1, qprops, qerr⟩ := ih (st1.assignProp inst rec.key v) r st' hinst1 h
        have pA : Pres st (st1.assignProp inst rec.key v) :=
          p1.trans (Pres.assignProp st1 inst rec.key v hlt1)
        refine ⟨pA.trans q1, ?_, qerr⟩
        intro j hj hne
        have h1 : st'.propsOf j = (st1.assignProp inst rec.key v).propsOf j :=
          qprops j (by simp only [St.nextId_assign]; exact Nat.lt_of_lt_of_le hj hn1) hne
        rw [h1, St.propsOf_assign_ne st1 inst rec.key v j hne, pprops j hj]

/-! ### Shape lemmas: the four gates of `get`, one per source branch -/

theorem St.WF.allocate {st : St} (h : st.WF) : st.allocate.WF :=
  ⟨fun e he => Nat.lt_succ_of_lt (h.1 e he), fun p hp => Nat.lt_succ_of_lt (h.2 p hp)⟩

theorem St.WF.cache {st : St} (h : st.WF) (t : Ty) (i : InstId) (hi : i < st.nextId) :
    (st.cacheInstance t i).WF := by
  refine ⟨h.1, ?_⟩
  intro p hp
  simp only [St.cacheInstance, List.mem_cons] at hp
  rcases hp with rfl | hp
  · exact hi
  · exact h.2 p hp

theorem contains_cons_of (l : List Ty) (a b : Ty) (h : l.contains a = true) :
    (b :: l).contains a = true := by
  simp at h ⊢; exact Or.inr h

theorem ne_of_contains_false (l : List Ty) (a b : Ty) (h : l.contains b = false)
    (ha : l.contains a = true) : a ≠ b := by
  intro he; subst he; rw [ha] at h; cases h

/-- Gate 1: an undefined dependency reference is rejected first. -/
theorem getAux_none_eq (env : Env) (fuel : Nat) (st : St) :
    getAux env (fuel + 1) st none = some (Except.error undefinedMsg, st) := rfl

/-- Gate 2: a defined but unregistered class is rejected next. -/
theorem getAux_unregistered_eq (env : Env) (fuel : Nat) (st : St) (t : Ty)
    (hreg : env.isRegistered t = false) :
    getAux env (fuel + 1) st (some t) =
      some (Except.error (unregisteredMsg (env.nameOf t)), st) := by
  simp [getAux, hreg]

/-- Gate 3: a cached instance is returned before the cycle check runs. -/
theorem getAux_cached_eq (env : Env) (fuel : Nat) (st : St) (t : Ty) (i : InstId)
    (hreg : env.isRegistered t = true) (hc : st.instanceOf t = some i) :
    getAux env (fuel + 1) st (some t) = some (Except.ok i, st) := by
  simp [getAux, hreg, hc]

/-- Gate 4: an uncached class already mid-resolution is a cycle. -/
theorem getAux_circular_eq (env : Env) (fuel : Nat) (st : St) (t : Ty)
    (hreg : env.isRegistered t = true) (hc : st.instanceOf t = none)
    (hres : st.resolving.contains t = true) :
    getAux env (fuel + 1) st (some t) =
      some (Except.error (circularMsg (env.nameOf t)), st) := by
  have h' : t ∈ st.resolving := by simpa using hres
  simp [getAux, hreg, hc, h']

/-- The body: instantiate, walk the chain, cache on success, release
`resolving` on both paths. -/
theorem getAux_fresh_eq (env : Env) (fuel : Nat) (st : St) (t : Ty)
    (hreg : env.isRegistered t = true) (hc : st.instanceOf t = none)
    (hres : st.resolving.contains t = false) :
    getAux env (fuel + 1) st (some t) =
      match injectList (getAux env fuel) st.nextId ((st.enterResolving t).allocate)
          (chainRecords env t) with
      | none => none
      | some (Except.error e, st3) => some (Except.error e, st3.exitResolving t)
      | some (Except.ok _, st3) =>
        some (Except.ok st.nextId, (st3.cacheInstance t st.nextId).exitResolving t) := by
  have h' : t ∉ st.resolving := by simpa using hres
  simp [getAux, hreg, hc, h']

/-! ### Soundness of the resolver -/

/-- Every terminating call of the fuelled resolver satisfies the `Sound`
package: `Pres`, preservation of older instances' properties, the three
exact error messages, and success-implies-cached. -/
theorem getAux_sound (env : Env) : ∀ fuel : Nat, Sound (getAux env fuel) := by
  intro fuel
  induction fuel with
  | zero =>
    intro st t? r st' h
    exact Option.noConfusion h
  | succ fuel ih =>
    intro st t? r st' h
    cases t? with
    | none =>
      rw [getAux_none_eq] at h
      simp only [Option.some.injEq, Prod.mk.injEq] at h
      obtain ⟨rfl, rfl⟩ := h
      refine ⟨Pres.refl st, fun _ _ => Eq.refl _, ?_, ?_⟩
      · intro e he; cases he; exact Or.inl (Eq.refl _)
      · intro i hi; cases hi
    | some t =>
      cases hreg : env.isRegistered t with
      | false =>
        rw [getAux_unregistered_eq env fuel st t hreg] at h
        simp only [Option.some.injEq, Prod.mk.injEq] at h
        obtain ⟨rfl, rfl⟩ := h
        refine ⟨Pres.refl st, fun _ _ => Eq.refl _, ?_, ?_⟩
        · intro e he; cases he; exact Or.inr (Or.inl ⟨env.nameOf t, Eq.refl _⟩)
        · intro i hi; cases hi
      | true =>
        cases hc : st.instanceOf t with
        | some i0 =>
          rw [getAux_cached_eq env fuel st t i0 hreg hc] at h
          simp only [Option.some.injEq, Prod.mk.injEq] at h
          obtain ⟨rfl, rfl⟩ := h
          refine ⟨Pres.refl st, fun _ _ => Eq.refl _, ?_, ?_⟩
          · intro e he; cases he
          · intro i hi; cases hi; exact ⟨t, Eq.refl _, hc⟩
        | none =>
          cases hres : st.resolving.contains t with
          | true =>
            rw [getAux_circular_eq env fuel st t hreg hc hres] at h
            simp only [Option.some.injEq, Prod.mk.injEq] at h
            obtain ⟨rfl, rfl⟩ := h
            refine ⟨Pres.refl st, fun _ _ => Eq.refl _, ?_, ?_⟩
            · intro e he; cases he; exact Or.inr (Or.inr ⟨env.nameOf t, Eq.refl _⟩)
            · intro i hi; cases hi
          | false =>
            rw [getAux_fresh_eq env fuel st t hreg hc hres] at h
            cases hinj : injectList (getAux env fuel) st.nextId
                ((st.enterResolving t).allocate) (chainRecords env t) with
            | none => rw [hinj] at h; exact Option.noConfusion h
            | some res =>
              obtain ⟨res1, st3⟩ := res
              rw [hinj] at h
              have hlt : st.nextId < ((st.enterResolving t).allocate).nextId := by
                simp only [St.nextId_allocate, St.nextId_enter]
                exact Nat.lt_succ_self _
              obtain ⟨p1, pprops, perr⟩ :=
                injectList_sound (getAux env fuel) ih st.nextId (chainRecords env t)
                  ((st.enterResolving t).allocate) res1 st3 hlt hinj
              have hn3 : st.nextId + 1 ≤ st3.nextId := by
                have hx := p1.2.1
                simpa using hx
              have hres3 : st3.resolving = t :: st.resolving := by
                have hx := p1.1
                simpa using hx
              cases res1 with
              | error e =>
                simp only [Option.some.injEq, Prod.mk.injEq] at h
                obtain ⟨rfl, rfl⟩ := h
                refine ⟨⟨?_, ?_, ?_, ?_, ?_⟩, ?_, ?_, ?_⟩
                · simp only [St.resolving_exit, hres3, List.erase_cons_head]
                · simp only [St.nextId_exit]
                  exact le_trans (Nat.le_succ st.nextId) hn3
                · intro u v hu
                  exact p1.2.2.1 u v hu
                · intro u hu hnone
                  exact p1.2.2.2.1 u (contains_cons_of st.resolving u t hu) hnone
                · intro hwf
                  exact p1.2.2.2.2 ((show (st.enterResolving t).WF from hwf).allocate)
                · intro j hj
                  rw [St.propsOf_exit]
                  have hj1 : j < ((st.enterResolving t).allocate).nextId := by
                    simp only [St.nextId_allocate, St.nextId_enter]
                    exact Nat.lt_succ_of_lt hj
                  exact pprops j hj1 (Nat.ne_of_lt hj)
                · intro e' he'; cases he'; exact perr _ (Eq.refl _)
                · intro i hi; cases hi
              | ok u0 =>
                simp only [Option.some.injEq, Prod.mk.injEq] at h
                obtain ⟨rfl, rfl⟩ := h
                refine ⟨⟨?_, ?_, ?_, ?_, ?_⟩, ?_, ?_, ?_⟩
                · simp only [St.resolving_exit, St.resolving_cache, hres3,
                    List.erase_cons_head]
                · simp only [St.nextId_exit, St.nextId_cache]
                  exact le_trans (Nat.le_succ st.nextId) hn3
                · intro u v hu
                  have hne : u ≠ t := by
                    intro heq; subst heq; rw [hc] at hu; cases hu
                  have h3 : st3.instanceOf u = some v := p1.2.2.1 u v hu
                  rw [St.instanceOf_exit, St.instanceOf_cache_ne _ _ _ _ hne]
                  exact h3
                · intro u hu hnone
                  have hne : u ≠ t := ne_of_contains_false st.resolving u t hres hu
                  have h3 : st3.instanceOf u = none :=
                    p1.2.2.2.1 u (contains_cons_of st.resolving u t hu) hnone
                  rw [St.instanceOf_exit, St.instanceOf_cache_ne _ _ _ _ hne]
                  exact h3
                · intro hwf
                  have h3 : st3.WF := p1.2.2.2.2 ((show (st.enterResolving t).WF from hwf).allocate)
                  exact h3.cache t st.nextId (Nat.lt_of_lt_of_le (Nat.lt_succ_self _) hn3)
                · intro j hj
                  rw [St.propsOf_exit, St.propsOf_cache]
                  have hj1 : j < ((st.enterResolving t).allocate).nextId := by
                    simp only [St.nextId_allocate, St.nextId_enter]
                    exact Nat.lt_succ_of_lt hj
                  exact pprops j hj1 (Nat.ne_of_lt hj)
                · intro e he; cases he
                · intro i hi
                  cases hi
                  refine ⟨t, Eq.refl _, ?_⟩
                  rw [St.instanceOf_exit]
                  exact St.instanceOf_cache_self st3 t st.nextId

/-! ### Totality: the cycle check bounds the recursion depth -/

/-- The number of registered classes not currently mid-resolution.  Entering
resolution of a fresh registered class strictly decreases it, and it is
bounded by the registry size, so recursion depth never exceeds
`registryKeys.length + 1`. -/
def StMeas (env : Env) (st : St) : Nat :=
  (env.registryKeys.filter (fun u => !(st.resolving.contains u))).length

theorem StMeas_congr (env : Env) {st st' : St} (h : st'.resolving = st.resolving) :
    StMeas env st' = StMeas env st := by
  simp only [StMeas, h]

theorem filter_length_lt {l : List Ty} {p q : Ty → Bool} (t : Ty) (ht : t ∈ l)
    (hp : p t = true) (hq : q t = false) (himp : ∀ u, q u = true → p u = true) :
    (l.filter q).length < (l.filter p).length := by
  have hsub : List.Sublist (l.filter q) (l.filter p) := List.monotone_filter_right l himp
  rcases Nat.lt_or_ge (l.filter q).length (l.filter p).length with hlt | hge
  · exact hlt
  · exfalso
    have heqlen : (l.filter q).length = (l.filter p).length :=
      le_antisymm hsub.length_le hge
    have heq : l.filter q = l.filter p := hsub.eq_of_length heqlen
    have htp : t ∈ l.filter p := List.mem_filter.2 ⟨ht, hp⟩
    rw [← heq] at htp
    have := (List.mem_filter.1 htp).2
    rw [hq] at this
    cases this

theorem StMeas_enter_lt (env : Env) (st : St) (t : Ty) (hreg : env.isRegistered t = true)
    (hres : st.resolving.contains t = false) :
    StMeas env (st.enterResolving t) < StMeas env st := by
  have ht : t ∈ env.registryKeys := by simpa [Env.isRegistered] using hreg
  apply filter_length_lt t ht
  · simpa using hres
  · simp
  · intro u hu
    have hu' : u ∉ (st.enterResolving t).resolving := by simpa using hu
    have hmem : u ∉ st.resolving := fun hm => hu' (by simp [hm])
    simpa using hmem

/-- Totality of the injection loop, given soundness and totality of the
resolver below the measure bound. -/
theorem injectList_total (env : Env)
    (g : St → Option Ty → Option ((Except String InstId) × St)) (hg : Sound g) (F : Nat)
    (htot : ∀ st t?, StMeas env st < F → (g st t?).isSome) :
    ∀ (rs : List InjRecord) (st : St) (inst : InstId), StMeas env st < F →
      (injectList g inst st rs).isSome := by
  intro rs
  induction rs with
  | nil => intro st inst _; simp [injectList]
  | cons rec rs ih =>
    intro st inst hm
    have h1 : (g st rec.dependency).isSome = true := htot st rec.dependency hm
    cases hr : g st rec.dependency with
    | none => rw [hr] at h1; cases h1
    | some res =>
      obtain ⟨res1, st1⟩ := res
      have hpres := (hg st rec.dependency res1 st1 hr).1.1
      cases res1 with
      | error e => simp [injectList, hr]
      | ok v =>
        simp only [injectList, hr]
        apply ih
        have : (st1.assignProp inst rec.key v).resolving = st.resolving := by
          simp [hpres]
        rw [StMeas_congr env this]
        exact hm

/-- With fuel strictly above the measure, the fuelled resolver terminates. -/
theorem getAux_total (env : Env) :
    ∀ (fuel : Nat) (st : St) (t? : Option Ty), StMeas env st < fuel →
      (getAux env fuel st t?).isSome := by
  intro fuel
  induction fuel with
  | zero => intro st t? hm; cases hm
  | succ fuel ih =>
    intro st t? hm
    cases t? with
    | none => rw [getAux_none_eq]; exact Option.isSome_some
    | some t =>
      cases hreg : env.isRegistered t with
      | false => rw [getAux_unregistered_eq env fuel st t hreg]; exact Option.isSome_some
      | true =>
        cases hc : st.instanceOf t with
        | some i => rw [getAux_cached_eq env fuel st t i hreg hc]; exact Option.isSome_some
        | none =>
          cases hres : st.resolving.contains t with
          | true => rw [getAux_circular_eq env fuel st t hreg hc hres]; exact Option.isSome_some
          | false =>
            rw [getAux_fresh_eq env fuel st t hreg hc hres]
            have hm2 : StMeas env ((st.enterResolving t).allocate) < fuel := by
              have h1 : StMeas env ((st.enterResolving t).allocate) =
                  StMeas env (st.enterResolving t) :=
                StMeas_congr env (St.resolving_allocate (st.enterResolving t))
              rw [h1]
              have h2 := StMeas_enter_lt env st t hreg hres
              omega
            have hinj : (injectList (getAux env fuel) st.nextId ((st.enterResolving t).allocate)
                (chainRecords env t)).isSome :=
              injectList_total env (getAux env fuel) (getAux_sound env fuel) fuel
                (fun st₀ t₀ hm₀ => ih st₀ t₀ hm₀) (chainRecords env t)
                ((st.enterResolving t).allocate) st.nextId hm2
            cases hres2 : injectList (getAux env fuel) st.nextId ((st.enterResolving t).allocate)
                (chainRecords env t) with
            | none => rw [hres2] at hinj; cases hinj
            | some res =>
              obtain ⟨res1, st3⟩ := res
              cases res1 with
              | error e => simp
              | ok v => simp

/-- The fixed fuel of `DIContainer.get` always suffices. -/
theorem get_isSome (env : Env) (st : St) (t? : Option Ty) :
    (DIContainer.get env st t?).isSome := by
  apply getAux_total
  have h1 : StMeas env st ≤ env.registryKeys.length :=
    List.length_filter_le _ env.registryKeys
  omega

/-! ### Corollaries about the top-level resolver -/

/-- `DIContainer.get` satisfies the soundness package. -/
theorem get_sound (env : Env) : Sound (DIContainer.get env) :=
  getAux_sound env (env.registryKeys.length + 1)

/-- A successful resolution implies the class was registered. -/
theorem getAux_okRegistered (env : Env) (fuel : Nat) (st : St) (t : Ty) (i : InstId) (st' : St)
    (h : getAux env (fuel + 1) st (some t) = some (Except.ok i, st')) :
    env.isRegistered t = true := by
  cases hreg : env.isRegistered t with
  | true => rfl
  | false =>
    rw [getAux_unregistered_eq env fuel st t hreg] at h
    simp at h

/-- A successful resolution of an uncached class went through the fresh
branch: the class was registered and not mid-resolution, the returned
instance is the freshly allocated one, and the counter advanced. -/
theorem getAux_freshOk (env : Env) (fuel : Nat) (st : St) (t : Ty) (i : InstId) (st' : St)
    (h : getAux env (fuel + 1) st (some t) = some (Except.ok i, st'))
    (hfresh : st.instanceOf t = none) :
    env.isRegistered t = true ∧ i = st.nextId ∧ st.nextId < st'.nextId ∧
      st.resolving.contains t = false := by
  have hreg : env.isRegistered t = true := getAux_okRegistered env fuel st t i st' h
  cases hres : st.resolving.contains t with
  | true =>
    rw [getAux_circular_eq env fuel st t hreg hfresh hres] at h
    simp at h
  | false =>
    rw [getAux_fresh_eq env fuel st t hreg hfresh hres] at h
    cases hinj : injectList (getAux env fuel) st.nextId ((st.enterResolving t).allocate)
        (chainRecords env t) with
    | none => rw [hinj] at h; exact Option.noConfusion h
    | some res =>
      obtain ⟨res1, st3⟩ := res
      rw [hinj] at h
      have hlt : st.nextId < ((st.enterResolving t).allocate).nextId := by
        simp only [St.nextId_allocate, St.nextId_enter]
        exact Nat.lt_succ_self _
      cases res1 with
      | error e => simp at h
      | ok v =>
        obtain ⟨p1, -, -⟩ :=
          injectList_sound (getAux env fuel) (getAux_sound env fuel) st.nextId
            (chainRecords env t) ((st.enterResolving t).allocate) (Except.ok v) st3 hlt hinj
        have hn3 : st.nextId + 1 ≤ st3.nextId := by
          have hx := p1.2.1
          simpa using hx
        simp only [Option.some.injEq, Prod.mk.injEq] at h
        obtain ⟨h1, h2⟩ := h
        cases h1
        subst h2
        exact ⟨hreg, rfl, by simp only [St.nextId_exit, St.nextId_cache]; omega, rfl⟩

/-- A failed resolution leaves its argument uncached. -/
theorem getAux_errArg (env : Env) (fuel : Nat) (st : St) (t : Ty) (e : String) (st' : St)
    (h : getAux env (fuel + 1) st (some t) = some (Except.error e, st'))
    (hfresh : st.instanceOf t = none) :
    st'.instanceOf t = none := by
  cases hreg : env.isRegistered t with
  | false =>
    rw [getAux_unregistered_eq env fuel st t hreg] at h
    simp only [Option.some.injEq, Prod.mk.injEq] at h
    obtain ⟨-, rfl⟩ := h
    exact hfresh
  | true =>
    cases hres : st.resolving.contains t with
    | true =>
      rw [getAux_circular_eq env fuel st t hreg hfresh hres] at h
      simp only [Option.some.injEq, Prod.mk.injEq] at h
      obtain ⟨-, rfl⟩ := h
      exact hfresh
    | false =>
      rw [getAux_fresh_eq env fuel st t hreg hfresh hres] at h
      cases hinj : injectList (getAux env fuel) st.nextId ((st.enterResolving t).allocate)
          (chainRecords env t) with
      | none => rw [hinj] at h; exact Option.noConfusion h
      | some res =>
        obtain ⟨res1, st3⟩ := res
        rw [hinj] at h
        have hlt : st.nextId < ((st.enterResolving t).allocate).nextId := by
          simp only [St.nextId_allocate, St.nextId_enter]
          exact Nat.lt_succ_self _
        cases res1 with
        | ok v => simp at h
        | error e0 =>
          obtain ⟨p1, -, -⟩ :=
            injectList_sound (getAux env fuel) (getAux_sound env fuel) st.nextId
              (chainRecords env t) ((st.enterResolving t).allocate) (Except.error e0) st3 hlt hinj
          simp only [Option.some.injEq, Prod.mk.injEq] at h
          obtain ⟨-, rfl⟩ := h
          have h4 : st3.instanceOf t = none :=
            p1.2.2.2.1 t (by simp) hfresh
          exact h4

/-- Cached instances survive any further sequence of top-level calls. -/
theorem runGets_instanceOf (env : Env) :
    ∀ (calls : List (Option Ty)) (st : St) (u : Ty) (v : InstId),
      st.instanceOf u = some v → (runGets env calls st).instanceOf u = some v := by
  intro calls
  induction calls with
  | nil => intro st u v h; exact h
  | cons c cs ih =>
    intro st u v h
    simp only [runGets]
    cases hg : DIContainer.get env st c with
    | none => exact ih st u v h
    | some res =>
      obtain ⟨r, st'⟩ := res
      exact ih st' u v ((get_sound env st c r st' hg).1.2.2.1 u v h)

/-- `reset` unsets the cached instance of every registered class. -/
theorem reset_instanceOf_none (env : Env) (st : St) (u : Ty)
    (hreg : env.isRegistered u = true) :
    (DIContainer.reset env st).instanceOf u = none := by
  simp only [DIContainer.reset, St.instanceOf]
  induction st.instances with
  | nil => rfl
  | cons p ps ih =>
    by_cases hp : env.isRegistered p.1
    · simpa [List.filter_cons, hp] using ih
    · have hne : u ≠ p.1 := fun he => hp (he ▸ hreg)
      simpa [List.filter_cons, hp, List.lookup, beq_false_of_ne hne] using ih

theorem St.empty_WF : St.empty.WF := by
  constructor <;> intro x hx <;> simp [St.empty] at hx

/-- On success, the injection loop appended exactly one property assignment
per record, in order: the record's key, holding the instance at which the
record's dependency is cached in the final state. -/
theorem injectList_props (g : St → Option Ty → Option ((Except String InstId) × St))
    (hg : Sound g) (inst : InstId) :
    ∀ (rs : List InjRecord) (st : St) (u0 : Unit) (st' : St), inst < st.nextId →
      injectList g inst st rs = some (Except.ok u0, st') →
      ∃ newProps, st'.propsOf inst = st.propsOf inst ++ newProps ∧
        List.Forall₂ (fun (r : InjRecord) (p : String × InstId) =>
          p.1 = r.key ∧ ∃ d, r.dependency = some d ∧ st'.instanceOf d = some p.2)
          rs newProps := by
  intro rs
  induction rs with
  | nil =>
    intro st u0 st' _ h
    simp only [injectList, Option.some.injEq, Prod.mk.injEq] at h
    obtain ⟨-, rfl⟩ := h
    exact ⟨[], (List.append_nil _).symm, List.Forall₂.nil⟩
  | cons rec rs ih =>
    intro st u0 st' hinst h
    simp only [injectList] at h
    cases hr : g st rec.dependency with
    | none => rw [hr] at h; exact Option.noConfusion h
    | some res =>
      obtain ⟨res1, st1⟩ := res
      rw [hr] at h
      obtain ⟨p1, pprops, -, pok⟩ := hg st rec.dependency res1 st1 hr
      have hn1 : st.nextId ≤ st1.nextId := p1.2.1
      cases res1 with
      | error e => simp at h
      | ok v =>
        simp only at h
        have hinstA : inst < (st1.assignProp inst rec.key v).nextId := by
          simp only [St.nextId_assign]
          exact Nat.lt_of_lt_of_le hinst hn1
        obtain ⟨newProps, hsplit, hrel⟩ := ih (st1.assignProp inst rec.key v) u0 st' hinstA h
        obtain ⟨q1, -, -⟩ :=
          injectList_sound g hg inst rs (st1.assignProp inst rec.key v) (Except.ok u0) st'
            hinstA h
        obtain ⟨d, hd, hcached⟩ := pok v (Eq.refl _)
        have hfinal : st'.instanceOf d = some v := q1.2.2.1 d v hcached
        refine ⟨(rec.key, v) :: newProps, ?_, List.Forall₂.cons ⟨rfl, d, hd, hfinal⟩ hrel⟩
        rw [hsplit, St.propsOf_assign_self, pprops inst hinst]
        simp

/-! ### Concrete registration setups used by the witnesses -/

/-- One registered class `TestA` with no injections. -/
def envSingle : Env := ⟨[0], [(0, "TestA")], [], []⟩

/-- Two registered classes `A` (id 0) and `B` (id 1) injecting each other:
a genuine dependency cycle with both constructor references defined. -/
def envCycle : Env := ⟨[0, 1], [(0, "A"), (1, "B")], [],
  [(0, [⟨"b", some 1⟩]), (1, [⟨"a", some 0⟩])]⟩

/-- `MyController` (id 1, registered) extends the non-registered
`BaseController` (id 0) which injects `Logger` (id 2, registered); the
subclass itself declares no injections. -/
def envInherit : Env := ⟨[1, 2],
  [(0, "BaseController"), (1, "MyController"), (2, "Logger")],
  [(1, 0)], [(0, [⟨"logger", some 2⟩])]⟩

/-- `R` (id 0, registered) injects first `A` (id 1, registered) and then
`X` (id 2, never registered), so resolving `R` fails after `A` succeeded. -/
def envFail : Env := ⟨[0, 1], [(0, "R"), (1, "A"), (2, "X")], [],
  [(0, [⟨"a", some 1⟩, ⟨"x", some 2⟩])]⟩

/-- The reported name of the unregistered class in `envFail`. -/
def nameX : String := "X"

/-- The reported name of class `A` in `envCycle`. -/
def nameA : String := "A"

/-- State after `get(TestA)` from the initial state in `envSingle`. -/
def stSingle1 : St := ⟨[(0, 0)], [], 1, []⟩

/-- State after `reset()` and a second `get(TestA)` in `envSingle`. -/
def stSingle2 : St := ⟨[(0, 1)], [], 2, []⟩

/-- A mid-resolution state in `envCycle`: `A` entered `resolving`, nothing
cached yet. -/
def stCycleMid : St := ⟨[], [0], 1, []⟩

/-- A state where `A` is cached and also (re-entrantly) in `resolving`. -/
def stCached : St := ⟨[(0, 5)], [0], 6, []⟩

/-- State after `get(MyController)` from the initial state in `envInherit`. -/
def stInherit1 : St := ⟨[(1, 0), (2, 1)], [], 2, [(0, "logger", 1)]⟩

/-- State after the failing `get(R)` from the initial state in `envFail`:
the sibling `A` stays cached, nothing else. -/
def stFail1 : St := ⟨[(1, 1)], [], 2, [(0, "a", 1)]⟩

/-! ### The claims -/

/-- Claim C1 (singleton identity): once `get(T)` has succeeded with instance
`i`, then after any further sequence of top-level `get` calls — and no
`reset()` — the `Metadata.instance` slot of `T` still holds `i` (it was
written by the first successful resolution and is never overwritten), and a
new `get(T)` returns the same (reference-equal) instance `i`, leaving the
state untouched. -/
theorem singleton_identity (env : Env) (st : St) (t : Ty) (i : InstId) (st₁ : St)
    (calls : List (Option Ty))
    (h1 : DIContainer.get env st (some t) = some (Except.ok i, st₁)) :
    (runGets env calls st₁).instanceOf t = some i ∧
    DIContainer.get env (runGets env calls st₁) (some t) =
      some (Except.ok i, runGets env calls st₁) := by
  obtain ⟨t0, ht0, hcache⟩ :=
    (get_sound env st (some t) (Except.ok i) st₁ h1).2.2.2 i (Eq.refl _)
  have ht0' : t = t0 := Option.some.inj ht0
  subst ht0'
  have hreg : env.isRegistered t = true :=
    getAux_okRegistered env env.registryKeys.length st t i st₁ h1
  have hpersist := runGets_instanceOf env calls st₁ t i hcache
  exact ⟨hpersist,
    getAux_cached_eq env env.registryKeys.length (runGets env calls st₁) t i hreg hpersist⟩

theorem singleton_identity_witness :
    DIContainer.get envSingle St.empty (some 0) = some (Except.ok 0, stSingle1) ∧
    ((runGets envSingle [some 0] stSingle1).instanceOf 0 = some 0 ∧
      DIContainer.get envSingle (runGets envSingle [some 0] stSingle1) (some 0) =
        some (Except.ok 0, runGets envSingle [some 0] stSingle1)) :=
  ⟨rfl, singleton_identity envSingle St.empty 0 0 stSingle1 [some 0] rfl⟩

/-- Claim C2 (true cycle detection): if `get(type)` is called while `type`
is already a member of the resolving set and `type` has not yet cached an
instance, `get` throws the circular-dependency error whose message is
exactly `[DI] Circular dependency detected while resolving <TypeName>`,
with `TypeName` the re-entered type's reported name; the state is
unchanged. -/
theorem true_cycle_detection (env : Env) (st : St) (t : Ty)
    (hreg : env.isRegistered t = true) (hc : st.instanceOf t = none)
    (hres : st.resolving.contains t = true) :
    DIContainer.get env st (some t) =
      some (Except.error
        ("[DI] Circular dependency detected while resolving " ++ env.nameOf t), st) :=
  getAux_circular_eq env env.registryKeys.length st t hreg hc hres

theorem true_cycle_detection_witness :
    (envCycle.isRegistered 0 = true) ∧ (stCycleMid.instanceOf 0 = none) ∧
    (stCycleMid.resolving.contains 0 = true) ∧
    DIContainer.get envCycle stCycleMid (some 0) =
      some (Except.error
        ("[DI] Circular dependency detected while resolving " ++ envCycle.nameOf 0),
        stCycleMid) :=
  ⟨rfl, rfl, rfl, true_cycle_detection envCycle stCycleMid 0 rfl rfl rfl⟩

/-- Claim C3 (inheritance-aware injection): a fresh successful resolution of
`t` assigns, onto the new instance `i` and in order, exactly one property
per injection record of `t`'s prototype chain (walked from `t` itself
upward, stopping before `Object`; each ancestor contributes its direct
records in declaration order): the property is named by the record's key
and holds the instance at which the record's dependency type is cached in
the final state — i.e. the result of recursively resolving that dependency.
In particular a registered subclass of a non-registered base class that
declares no injections of its own still receives the base's injected
properties (see the witness, built on `envInherit`). -/
theorem inheritance_aware_injection (env : Env) (st : St) (t : Ty) (i : InstId) (st' : St)
    (h : DIContainer.get env st (some t) = some (Except.ok i, st'))
    (hfresh : st.instanceOf t = none) (hwf : st.WF) :
    List.Forall₂ (fun (r : InjRecord) (p : String × InstId) =>
        p.1 = r.key ∧ ∃ d, r.dependency = some d ∧ st'.instanceOf d = some p.2)
      (chainRecords env t) (st'.propsOf i) := by
  have h' : getAux env (env.registryKeys.length + 1) st (some t) =
      some (Except.ok i, st') := h
  obtain ⟨hreg, -, -, hres⟩ :=
    getAux_freshOk env env.registryKeys.length st t i st' h' hfresh
  rw [getAux_fresh_eq env env.registryKeys.length st t hreg hfresh hres] at h'
  cases hinj : injectList (getAux env env.registryKeys.length) st.nextId
      ((st.enterResolving t).allocate) (chainRecords env t) with
  | none => rw [hinj] at h'; exact Option.noConfusion h'
  | some res =>
    obtain ⟨res1, st3⟩ := res
    rw [hinj] at h'
    have hlt : st.nextId < ((st.enterResolving t).allocate).nextId := by
      simp only [St.nextId_allocate, St.nextId_enter]
      exact Nat.lt_succ_self _
    cases res1 with
    | error e => simp at h'
    | ok u0 =>
      simp only [Option.some.injEq, Prod.mk.injEq] at h'
      obtain ⟨h1, h2⟩ := h'
      cases h1
      subst h2
      have hemp : ((st.enterResolving t).allocate).propsOf st.nextId = [] :=
        St.propsOf_eq_nil_of_WF st hwf st.nextId (le_refl _)
      obtain ⟨newProps, hsplit, hrel⟩ :=
        injectList_props (getAux env env.registryKeys.length)
          (getAux_sound env env.registryKeys.length) st.nextId (chainRecords env t)
          ((st.enterResolving t).allocate) u0 st3 hlt hinj
      obtain ⟨p1, -, -⟩ :=
        injectList_sound (getAux env env.registryKeys.length)
          (getAux_sound env env.registryKeys.length) st.nextId (chainRecords env t)
          ((st.enterResolving t).allocate) (Except.ok u0) st3 hlt hinj
      have ht3 : st3.instanceOf t = none := p1.2.2.2.1 t (by simp) hfresh
      have hprops :
          ((st3.cacheInstance t st.nextId).exitResolving t).propsOf st.nextId = newProps := by
        rw [St.propsOf_exit, St.propsOf_cache, hsplit, hemp]
        simp
      rw [hprops]
      refine hrel.imp ?_
      rintro r p ⟨hk, d, hd, hcached⟩
      refine ⟨hk, d, hd, ?_⟩
      have hne : d ≠ t := by
        intro he
        subst he
        rw [ht3] at hcached
        exact Option.noConfusion hcached
      rw [St.instanceOf_exit, St.instanceOf_cache_ne _ _ _ _ hne]
      exact hcached

theorem inheritance_aware_injection_witness :
    DIContainer.get envInherit St.empty (some 1) = some (Except.ok 0, stInherit1) ∧
    St.empty.instanceOf 1 = none ∧ St.empty.WF ∧
    List.Forall₂ (fun (r : InjRecord) (p : String × InstId) =>
        p.1 = r.key ∧ ∃ d, r.dependency = some d ∧ stInherit1.instanceOf d = some p.2)
      (chainRecords envInherit 1) (stInherit1.propsOf 0) :=
  ⟨rfl, rfl, St.empty_WF,
    inheritance_aware_injection envInherit St.empty 1 0 stInherit1 rfl rfl St.empty_WF⟩

/-- Claim C4 (cache hit precedes the cycle check): if the Metadata of `type`
already holds a cached instance, `get(type)` returns it immediately with no
further traversal and no cycle check — the state, including the resolving
set, is untouched, and this holds even when `type` is currently a member of
the resolving set (the witness re-enters a cached type mid-resolution and
succeeds instead of raising the circular-dependency error). -/
theorem cache_hit_precedes_cycle_check (env : Env) (st : St) (t : Ty) (i : InstId)
    (hreg : env.isRegistered t = true) (hc : st.instanceOf t = some i) :
    DIContainer.get env st (some t) = some (Except.ok i, st) :=
  getAux_cached_eq env env.registryKeys.length st t i hreg hc

theorem cache_hit_precedes_cycle_check_witness :
    (envCycle.isRegistered 0 = true) ∧ (stCached.instanceOf 0 = some 5) ∧
    (stCached.resolving.contains 0 = true) ∧
    DIContainer.get envCycle stCached (some 0) = some (Except.ok 5, stCached) :=
  ⟨rfl, rfl, rfl, cache_hit_precedes_cycle_check envCycle stCached 0 5 rfl rfl⟩

/-- Claim C5 (input gates in order, exact messages): `get(type)` first
checks definedness — an absent/undefined `type` yields exactly the message
`[DI] Cannot resolve dependency: type is undefined. Possible circular import
or missing dependency.` regardless of anything else — and only then
checks registration: a defined `type` without Metadata yields exactly
`[DI] <TypeName> is not registered. Use @Injectable`, naming the type. -/
theorem input_gates_order (env : Env) (st : St) :
    DIContainer.get env st none =
      some (Except.error
        "[DI] Cannot resolve dependency: type is undefined. Possible circular import or missing dependency.",
        st) ∧
    (∀ t : Ty, env.isRegistered t = false →
      DIContainer.get env st (some t) =
        some (Except.error ("[DI] " ++ env.nameOf t ++ " is not registered. Use @Injectable"),
          st)) :=
  ⟨getAux_none_eq env env.registryKeys.length st,
    fun t h => getAux_unregistered_eq env env.registryKeys.length st t h⟩

theorem input_gates_order_witness :
    DIContainer.get envSingle St.empty none =
      some (Except.error
        "[DI] Cannot resolve dependency: type is undefined. Possible circular import or missing dependency.",
        St.empty) ∧
    (envSingle.isRegistered 7 = false) ∧
    DIContainer.get envSingle St.empty (some 7) =
      some (Except.error ("[DI] " ++ envSingle.nameOf 7 ++ " is not registered. Use @Injectable"),
        St.empty) :=
  ⟨(input_gates_order envSingle St.empty).1, rfl,
    (input_gates_order envSingle St.empty).2 7 rfl⟩

/-- Claim C6 (failure propagation and non-caching): when a top-level `get`
ends in an error, the error reaching the caller is one of the three exact
messages (undefined, unregistered, circular) — nested failures propagate
unchanged, no other error shape exists — no instance is returned, and no
instance is cached for the argument type (if it was uncached) nor for any
type that was in the resolving stack when the call began. -/
theorem failure_propagation_and_non_caching (env : Env) (st : St) (t? : Option Ty)
    (e : String) (st' : St)
    (h : DIContainer.get env st t? = some (Except.error e, st')) :
    (e = undefinedMsg ∨ (∃ n, e = unregisteredMsg n) ∨ (∃ n, e = circularMsg n)) ∧
    (∀ u, st.resolving.contains u = true → st.instanceOf u = none →
      st'.instanceOf u = none) ∧
    (∀ t0, t? = some t0 → st.instanceOf t0 = none → st'.instanceOf t0 = none) := by
  have hs := get_sound env st t? (Except.error e) st' h
  refine ⟨hs.2.2.1 e (Eq.refl _), hs.1.2.2.2.1, ?_⟩
  rintro t0 rfl hfresh
  exact getAux_errArg env env.registryKeys.length st t0 e st' h hfresh

theorem failure_propagation_and_non_caching_witness :
    DIContainer.get envFail St.empty (some 0) =
      some (Except.error (unregisteredMsg nameX), stFail1) ∧
    ((unregisteredMsg nameX = undefinedMsg ∨ (∃ n, unregisteredMsg nameX = unregisteredMsg n) ∨
        (∃ n, unregisteredMsg nameX = circularMsg n)) ∧
      (∀ u, St.empty.resolving.contains u = true → St.empty.instanceOf u = none →
        stFail1.instanceOf u = none) ∧
      (∀ t0, (some 0 : Option Ty) = some t0 → St.empty.instanceOf t0 = none →
        stFail1.instanceOf t0 = none)) :=
  ⟨rfl, failure_propagation_and_non_caching envFail St.empty (some 0)
    (unregisteredMsg nameX) stFail1 rfl⟩

/-- Claim C7 (resolution-state stack discipline): every terminating
top-level `get` call — returning an instance or an error — restores the
resolving set exactly (a type added on entering resolution is removed on
every exit path); in particular a call starting with an empty resolving set
ends with an empty one. -/
theorem resolution_state_discipline (env : Env) (st : St) (t? : Option Ty)
    (r : Except String InstId) (st' : St)
    (h : DIContainer.get env st t? = some (r, st')) :
    st'.resolving = st.resolving ∧ (st.resolving = [] → st'.resolving = []) := by
  have hp := (get_sound env st t? r st' h).1.1
  exact ⟨hp, fun he => by rw [hp, he]⟩

theorem resolution_state_discipline_witness :
    DIContainer.get envCycle St.empty (some 0) =
      some (Except.error (circularMsg nameA), ⟨[], [], 2, []⟩) ∧
    ((⟨[], [], 2, []⟩ : St).resolving = St.empty.resolving ∧
      (St.empty.resolving = [] → (⟨[], [], 2, []⟩ : St).resolving = [])) :=
  ⟨rfl, resolution_state_discipline envCycle St.empty (some 0)
    (Except.error (circularMsg nameA)) ⟨[], [], 2, []⟩ rfl⟩

/-- Claim C8 (reset frame effect): `reset()` unsets the cached instance of
every registered type while touching nothing else in the mutable state (the
resolving set, the allocation counter and the recorded property
assignments are unchanged; the registry's key set and the injection records
live in the immutable `Env`, which `reset` cannot touch at all); as a
consequence `get(T); reset(); get(T)` yields a new instance that is not
reference-equal to the first. -/
theorem reset_frame_effect (env : Env) (st : St) (t : Ty) (i : InstId) (st₁ : St)
    (i' : InstId) (st₂ : St)
    (hfresh : st.instanceOf t = none)
    (h1 : DIContainer.get env st (some t) = some (Except.ok i, st₁))
    (h2 : DIContainer.get env (DIContainer.reset env st₁) (some t) =
      some (Except.ok i', st₂)) :
    (∀ u, env.isRegistered u = true → (DIContainer.reset env st₁).instanceOf u = none) ∧
    (DIContainer.reset env st₁).resolving = st₁.resolving ∧
    (DIContainer.reset env st₁).nextId = st₁.nextId ∧
    (DIContainer.reset env st₁).assignLog = st₁.assignLog ∧
    i' ≠ i := by
  obtain ⟨hregt, hi, hlt, -⟩ :=
    getAux_freshOk env env.registryKeys.length st t i st₁ h1 hfresh
  have hr0 : (DIContainer.reset env st₁).instanceOf t = none :=
    reset_instanceOf_none env st₁ t hregt
  obtain ⟨-, hi', -, -⟩ :=
    getAux_freshOk env env.registryKeys.length (DIContainer.reset env st₁) t i' st₂ h2 hr0
  refine ⟨fun u hu => reset_instanceOf_none env st₁ u hu, rfl, rfl, rfl, ?_⟩
  have hi'' : i' = st₁.nextId := hi'
  rw [hi, hi'']
  exact Nat.ne_of_gt hlt

theorem reset_frame_effect_witness :
    St.empty.instanceOf 0 = none ∧
    DIContainer.get envSingle St.empty (some 0) = some (Except.ok 0, stSingle1) ∧
    DIContainer.get envSingle (DIContainer.reset envSingle stSingle1) (some 0) =
      some (Except.ok 1, stSingle2) ∧
    ((∀ u, envSingle.isRegistered u = true →
        (DIContainer.reset envSingle stSingle1).instanceOf u = none) ∧
      (DIContainer.reset envSingle stSingle1).resolving = stSingle1.resolving ∧
      (DIContainer.reset envSingle stSingle1).nextId = stSingle1.nextId ∧
      (DIContainer.reset envSingle stSingle1).assignLog = stSingle1.assignLog ∧
      (1 : InstId) ≠ 0) :=
  ⟨rfl, rfl, rfl,
    reset_frame_effect envSingle St.empty 0 0 stSingle1 1 stSingle2 rfl rfl rfl⟩

/-- Claim C9 (termination): for every environment (finite registry, finite
injection map) and every starting state and argument, the top-level `get`
terminates: it produces a result, which is either an instance or one of the
three errors — the cycle check makes unbounded recursion unreachable, the
recursion depth being bounded by the number of registered types. -/
theorem resolution_terminates (env : Env) (st : St) (t? : Option Ty) :
    ∃ (r : Except String InstId) (st' : St),
      DIContainer.get env st t? = some (r, st') ∧
      ((∃ i, r = Except.ok i) ∨ r = Except.error undefinedMsg ∨
        (∃ n, r = Except.error (unregisteredMsg n)) ∨
        (∃ n, r = Except.error (circularMsg n))) := by
  have hs := get_isSome env st t?
  cases hg : DIContainer.get env st t? with
  | none => rw [hg] at hs; cases hs
  | some res =>
    obtain ⟨r, st'⟩ := res
    refine ⟨r, st', Eq.refl _, ?_⟩
    cases r with
    | ok i => exact Or.inl ⟨i, Eq.refl _⟩
    | error e =>
      have he := (get_sound env st t? (Except.error e) st' hg).2.2.1 e (Eq.refl _)
      rcases he with hh | ⟨n, hh⟩ | ⟨n, hh⟩
      · exact Or.inr (Or.inl (by rw [hh]))
      · exact Or.inr (Or.inr (Or.inl ⟨n, by rw [hh]⟩))
      · exact Or.inr (Or.inr (Or.inr ⟨n, by rw [hh]⟩))

/-- Claim C10 (no rollback of completed sub-resolutions): when a top-level
`get` throws because some dependency failed partway through the graph,
every instance that was already cached at that point — in particular a
sibling dependency whose own resolution completed earlier in the same
failing call, like `A` in the witness — stays cached: caches made before
the call survive it, and a later independent `get` on any type cached after
the failing call returns that cached instance with no new construction. -/
theorem no_rollback_of_completed_subresolutions (env : Env) (st : St) (t? : Option Ty)
    (e : String) (st₁ : St) (u : Ty) (v : InstId)
    (h : DIContainer.get env st t? = some (Except.error e, st₁))
    (hreg : env.isRegistered u = true) (hu : st₁.instanceOf u = some v) :
    DIContainer.get env st₁ (some u) = some (Except.ok v, st₁) ∧
    (∀ w x, st.instanceOf w = some x → st₁.instanceOf w = some x) :=
  ⟨getAux_cached_eq env env.registryKeys.length st₁ u v hreg hu,
    (get_sound env st t? (Except.error e) st₁ h).1.2.2.1⟩

theorem no_rollback_of_completed_subresolutions_witness :
    DIContainer.get envFail St.empty (some 0) =
      some (Except.error (unregisteredMsg nameX), stFail1) ∧
    (envFail.isRegistered 1 = true) ∧ (stFail1.instanceOf 1 = some 1) ∧
    (DIContainer.get envFail stFail1 (some 1) = some (Except.ok 1, stFail1) ∧
      (∀ w x, St.empty.instanceOf w = some x → stFail1.instanceOf w = some x)) :=
  ⟨rfl, rfl, rfl,
    no_rollback_of_completed_subresolutions envFail St.empty (some 0)
      (unregisteredMsg nameX) stFail1 1 1 rfl rfl rfl⟩

end DI
